import Mathlib

/-
Verification development for the pibot voice-assistant repository.
The session state machine is embedded from src/modules/session_manager.py,
the single-stream audio front end from src/modules/audio_input_v2.py, and
the loop-based audio front end from src/modules/audio_input.py.
Wall-clock times are natural numbers (an arbitrary unit; the source's float
second constants appear here scaled to milliseconds in the default
configuration). External collaborators (the openwakeword scorer and the
whisper transcriber) are modelled as oracle function parameters; an
explicit effect `predictCalled` records every invocation of the scorer.
-/

namespace Pibot

/- Payload strings are modelled as lists of characters. -/
abbrev Str := List Char

/- MQTT topics used by the session manager and the audio modules
(config/mqtt.yaml topic table). -/
inductive Topic
  | sessionState
  | sessionCommand
  | wakeDetected
  | transcription
  | robotSpeaking
  | llmRequest
  | llmResponse
  | robotEmotion
deriving DecidableEq

/-! Session manager (src/modules/session_manager.py). -/

inductive Phase
  | idle
  | active
  | speaking
deriving DecidableEq

/- `SessionState.value` strings of the python enum. -/
def Phase.value : Phase → Str
  | .idle => "idle".toList
  | .active => "active".toList
  | .speaking => "speaking".toList

structure SMConfig where
  idle_timeout : ℕ
  goodbye_phrases : List Str

structure SMState where
  phase : Phase
  last_activity : ℕ
deriving DecidableEq

/- Messages the session manager publishes (topic plus payload). -/
inductive SMOut
  | pubSessionState (payload : Str)
  | pubEmotion (payload : Str)
  | pubLlmRequest (payload : Str)
deriving DecidableEq

/- SessionManager.get_emotion -/
def get_emotion : Phase → Str
  | .idle => "sleeping".toList
  | .active => "listening".toList
  | .speaking => "talking".toList

/- SessionManager.set_state followed by publish_state: mutate the phase,
publish it on session/state and the derived emotion on robot/emotion. -/
def set_state (p : Phase) (s : SMState) : SMState × List SMOut :=
  ({s with phase := p}, [SMOut.pubSessionState p.value, SMOut.pubEmotion (get_emotion p)])

/- `phrase in payload.lower()` of python: case-fold the payload and test
each configured phrase for substring containment. -/
def lowerStr (xs : Str) : Str := xs.map Char.toLower

def goodbyeHit (phrases : List Str) (payload : Str) : Bool :=
  phrases.any (fun ph => decide (ph <:+: lowerStr payload))

/- SessionManager.on_message: dispatch on topic exactly as the python
callback does.  `now` stands for time.time() at dispatch. -/
def sm_on_message (cfg : SMConfig) (now : ℕ) (topic : Topic) (payload : Str)
    (s : SMState) : SMState × List SMOut :=
  if topic = Topic.sessionCommand then
    if payload = "cancel".toList ∨ payload = "reset".toList then set_state Phase.idle s
    else (s, [])
  else if topic = Topic.wakeDetected then
    if s.phase = Phase.idle then set_state Phase.active {s with last_activity := now}
    else (s, [])
  else if topic = Topic.transcription then
    if s.phase = Phase.active then
      if goodbyeHit cfg.goodbye_phrases payload then set_state Phase.idle s
      else
        let r := set_state Phase.speaking s
        (r.1, SMOut.pubSessionState ("thinking".toList) :: SMOut.pubLlmRequest payload :: r.2)
    else (s, [])
  else if topic = Topic.robotSpeaking then
    if payload = "true".toList then
      if s.phase ≠ Phase.speaking then set_state Phase.speaking s else (s, [])
    else if payload = "false".toList then
      if s.phase = Phase.speaking then set_state Phase.idle s else (s, [])
    else (s, [])
  else (s, [])

/- One iteration of SessionManager.check_timeout's per-second loop body. -/
def check_timeout (cfg : SMConfig) (now : ℕ) (s : SMState) : SMState × List SMOut :=
  if s.phase = Phase.active then
    if now - s.last_activity > cfg.idle_timeout then set_state Phase.idle s
    else (s, [])
  else (s, [])

/- The llm/request payloads among a list of published messages. -/
def llmRequests (outs : List SMOut) : List Str :=
  outs.filterMap (fun o => match o with | .pubLlmRequest q => some q | _ => none)

/-! Audio front end, single-stream architecture
(src/modules/audio_input_v2.py). -/

/- An audio frame: int16 samples at the microphone rate. -/
abbrev Frame := List ℤ

/- int(np.abs(chunk).mean()): integer-truncated mean absolute amplitude, as
used by the wake-word volume gate. -/
def meanAbsInt (f : Frame) : ℕ := (f.map Int.natAbs).sum / f.length

/- np.abs(chunk).mean() without truncation, as compared against the silence
threshold by the recorder's VAD. -/
def meanAbsQ (f : Frame) : ℚ := ((f.map Int.natAbs).sum : ℚ) / (f.length : ℚ)

/- Decimation 48k → 16k: trim to a multiple of three, average each block of
three, truncate back to int16 (np.mean(...).astype(np.int16)). -/
def decimate : Frame → Frame
  | a :: b :: c :: rest => Int.tdiv (a + b + c) 3 :: decimate rest
  | _ => []

structure AConfig where
  wake_threshold : ℚ
  silence_threshold : ℕ
  silence_duration : ℕ
  max_recording : ℕ
  wake_cooldown : ℕ
  detection_rate_limit : ℕ
  buffer_samples : ℕ

/- The constants of audio_input_v2.py with times in milliseconds
(SILENCE_THRESHOLD 300, SILENCE_DURATION 2.5 s, MAX_RECORDING 30 s,
wake_cooldown_seconds 3 s, detection_rate_limit 2 s, ring buffer 10 s at
48 kHz); the wake threshold comes from config/session.yaml and is taken at
the spec scenario's 0.6 here. -/
def defaultAConfig : AConfig :=
  { wake_threshold := 3 / 5
    silence_threshold := 300
    silence_duration := 2500
    max_recording := 30000
    wake_cooldown := 3000
    detection_rate_limit := 2000
    buffer_samples := 480000 }

structure AState where
  session_state : Str
  robot_speaking : Bool
  recording : Bool
  recording_buffer : List Frame
  silence_start : Option ℕ
  recording_start_time : ℕ
  last_wake_detection_time : ℕ
  last_detection_attempt : ℕ
  audio_buffer : List ℤ
deriving DecidableEq

/- Effects of the audio front end: scorer invocations, scorer resets, and
bus publishes on session/wake_detected and audio/transcription. -/
inductive AOut
  | predictCalled
  | owwReset
  | pubWake (score : ℚ)
  | pubTranscription (text : Str)
deriving DecidableEq

/- Initial field values from AudioInput.__init__. -/
def aInit : AState :=
  { session_state := "idle".toList
    robot_speaking := false
    recording := false
    recording_buffer := []
    silence_start := none
    recording_start_time := 0
    last_wake_detection_time := 0
    last_detection_attempt := 0
    audio_buffer := [] }

/- AudioInput.start_recording -/
def start_recording (now : ℕ) (s : AState) : AState :=
  { s with recording := true, recording_buffer := [], silence_start := none,
           recording_start_time := now }

/- AudioInput.stop_recording_and_transcribe: clear the recording flag; on an
empty buffer just fall back to idle; otherwise transcribe (oracle `tr`),
publish non-empty text, return to idle, reset the scorer and start the
cooldown timer. -/
def stop_recording_and_transcribe (tr : List Frame → Str) (now : ℕ)
    (s : AState) : AState × List AOut :=
  let s1 := { s with recording := false }
  if s1.recording_buffer = [] then ({ s1 with session_state := "idle".toList }, [])
  else
    let text := tr s1.recording_buffer
    let pubs := if text ≠ [] then [AOut.pubTranscription text] else []
    ({ s1 with session_state := "idle".toList, last_wake_detection_time := now },
     pubs ++ [AOut.owwReset])

/- AudioInput.process_wake_word: defensive state guard, volume gate, rate
limit, cooldown, then decimate, score (oracle `score`), and on a detection
publish, reset the scorer and auto-transition to recording. -/
def process_wake_word (cfg : AConfig) (score : Frame → ℚ) (now : ℕ) (f : Frame)
    (s : AState) : AState × List AOut :=
  if s.session_state ≠ "idle".toList ∨ s.recording = true then (s, [])
  else
    let volume := meanAbsInt f
    if volume < cfg.silence_threshold then (s, [])
    else if 0 < s.last_detection_attempt ∧
        now - s.last_detection_attempt < cfg.detection_rate_limit then (s, [])
    else if 0 < s.last_wake_detection_time ∧
        now - s.last_wake_detection_time < cfg.wake_cooldown then (s, [])
    else
      let jarvis_score := score (decimate f)
      if jarvis_score > cfg.wake_threshold then
        (start_recording now
          { s with last_detection_attempt := now, session_state := "active".toList },
         [AOut.predictCalled, AOut.pubWake jarvis_score, AOut.owwReset])
      else (s, [AOut.predictCalled])

/- AudioInput.process_recording: append the frame, run the VAD, stop on
sustained silence or on reaching the maximum duration. -/
def process_recording (cfg : AConfig) (tr : List Frame → Str) (now : ℕ)
    (f : Frame) (s : AState) : AState × List AOut :=
  if s.recording = false then (s, [])
  else
    let s1 := { s with recording_buffer := s.recording_buffer ++ [f] }
    if meanAbsQ f > (cfg.silence_threshold : ℚ) then
      let s2 := { s1 with silence_start := none }
      if now - s2.recording_start_time ≥ cfg.max_recording then
        stop_recording_and_transcribe tr now s2
      else (s2, [])
    else
      let start := s1.silence_start.getD now
      let s2 := { s1 with silence_start := some start }
      if now - start ≥ cfg.silence_duration then
        stop_recording_and_transcribe tr now s2
      else if now - s2.recording_start_time ≥ cfg.max_recording then
        stop_recording_and_transcribe tr now s2
      else (s2, [])

/- AudioInput.audio_callback: extend the ring buffer, then route the frame
to wake-word scoring exactly when idle and not speaking, or to the recorder
when active and recording. -/
def ringExtend (cap : ℕ) (buf : List ℤ) (f : Frame) : List ℤ :=
  let b := buf ++ f
  b.drop (b.length - cap)

def audio_callback (cfg : AConfig) (score : Frame → ℚ) (tr : List Frame → Str)
    (now : ℕ) (f : Frame) (s : AState) : AState × List AOut :=
  let s0 := { s with audio_buffer := ringExtend cfg.buffer_samples s.audio_buffer f }
  if s0.session_state = "idle".toList ∧ s0.robot_speaking = false then
    process_wake_word cfg score now f s0
  else if s0.session_state = "active".toList ∧ s0.recording = true then
    process_recording cfg tr now f s0
  else (s0, [])

/- AudioInput.on_message of audio_input_v2.py: track the session state and
the speaking flag; start recording on the idle → active edge. -/
def a_on_message (now : ℕ) (topic : Topic) (payload : Str) (s : AState) :
    AState × List AOut :=
  if topic = Topic.sessionState then
    let s1 := { s with session_state := payload }
    if s.session_state = "idle".toList ∧ payload = "active".toList then
      (start_recording now s1, [])
    else (s1, [])
  else if topic = Topic.robotSpeaking then
    ({ s with robot_speaking := payload = "true".toList }, [])
  else (s, [])

/- Inputs delivered to the audio module: audio frames from the stream
callback and MQTT messages, each carrying its wall-clock time. -/
inductive AEvent
  | frame (t : ℕ) (f : Frame)
  | msg (t : ℕ) (topic : Topic) (payload : Str)

def AEvent.time : AEvent → ℕ
  | .frame t _ => t
  | .msg t _ _ => t

def stepA (cfg : AConfig) (score : Frame → ℚ) (tr : List Frame → Str) :
    AState → AEvent → AState × List AOut
  | s, .frame t f => audio_callback cfg score tr t f s
  | s, .msg t topic payload => a_on_message t topic payload s

/- Run the audio module over a list of timed inputs, collecting every
effect tagged with the time of the input that produced it. -/
def runA (cfg : AConfig) (score : Frame → ℚ) (tr : List Frame → Str) :
    AState → List AEvent → AState × List (ℕ × AOut)
  | s, [] => (s, [])
  | s, e :: rest =>
    let p := stepA cfg score tr s e
    let q := runA cfg score tr p.1 rest
    (q.1, p.2.map (fun o => (e.time, o)) ++ q.2)

/- Emission times of the DetectionEvents (session/wake_detected publishes)
in a timed effect list. -/
def wakeTimes (outs : List (ℕ × AOut)) : List ℕ :=
  outs.filterMap (fun p => match p.2 with | AOut.pubWake _ => some p.1 | _ => none)

/- The wake scores published by one step's untimed effect list. -/
def wakeScores (outs : List AOut) : List ℚ :=
  outs.filterMap (fun o => match o with | AOut.pubWake sc => some sc | _ => none)

/-! Loop-based audio front end (src/modules/audio_input.py). -/

structure V1State where
  session_state : Str
  robot_speaking : Bool
deriving DecidableEq

/- AudioInput.listen_wake_word of audio_input.py: skip everything while the
robot speaks; otherwise decimate and score the freshly read chunk (the
computed volume is used only for logging), and publish a detection when
the score clears the threshold in the idle state. -/
def listen_wake_word (cfg : AConfig) (score : Frame → ℚ) (f : Frame)
    (s : V1State) : V1State × List AOut :=
  if s.robot_speaking = true then (s, [])
  else
    let jarvis_score := score (decimate f)
    if s.session_state = "idle".toList ∧ jarvis_score > cfg.wake_threshold then
      ({ s with session_state := "active".toList },
       [AOut.predictCalled, AOut.pubWake jarvis_score])
    else (s, [AOut.predictCalled])

/- The VAD constants local to AudioInput.listen_and_transcribe:
SILENCE_THRESHOLD 500, SILENCE_DURATION 2.5 s / CHUNK_DURATION 0.5 s = 5
chunks, MAX_RECORDING 30 s / 0.5 s = 60 chunks. -/
def V1_SILENCE_THRESHOLD : ℕ := 500

def V1_silence_chunks_needed : ℕ := 5

def V1_max_chunks : ℕ := 60

structure V1Rec where
  recorded : List Frame
  silence_count : ℕ
  total : ℕ
  speech : Bool
deriving DecidableEq

def v1RecInit : V1Rec := { recorded := [], silence_count := 0, total := 0, speech := false }

inductive V1StopReason
  | silence
  | maxed
  | input_exhausted
deriving DecidableEq

/- The recording loop of AudioInput.listen_and_transcribe: while fewer than
max_chunks have been read, read a chunk, classify it, append it, and break
once enough consecutive silent chunks follow detected speech.  The input
list stands for the unbounded microphone stream; running out of it is
modelled as `input_exhausted`. -/
def v1_record : List Frame → V1Rec → V1Rec × V1StopReason
  | [], r => (r, .input_exhausted)
  | f :: rest, r =>
    if V1_max_chunks ≤ r.total then (r, .maxed)
    else
      let r1 :=
        if meanAbsQ f > (V1_SILENCE_THRESHOLD : ℚ) then
          { r with silence_count := 0, speech := true }
        else if r.speech = true then { r with silence_count := r.silence_count + 1 }
        else r
      let r2 := { r1 with recorded := r1.recorded ++ [f], total := r1.total + 1 }
      if r2.speech = true ∧ V1_silence_chunks_needed ≤ r2.silence_count then (r2, .silence)
      else v1_record rest r2

/- The hallucination denylist hardcoded in AudioInput.listen_and_transcribe. -/
def hallucinations : List Str :=
  ["You".toList, "you".toList, "Thank you.".toList, "Thanks for watching.".toList,
   "Bye.".toList]

/- The tail of AudioInput.listen_and_transcribe after whisper returns:
return None for an exact denylist hit, otherwise publish non-empty text and
return it. -/
def v1_publish_transcription (text : Str) : Option Str × List AOut :=
  if text ∈ hallucinations then (none, [])
  else (some text, if text ≠ [] then [AOut.pubTranscription text] else [])

/- AudioInput.listen_and_transcribe over a chunk list, with the whisper
transcriber as oracle `tr`: record with VAD, bail out when no chunk ever
exceeded the threshold, otherwise transcribe the accumulated chunks and
run the denylist filter before publishing. -/
def listen_and_transcribe (tr : List Frame → Str) (chunks : List Frame)
    (s : V1State) : V1State × Option Str × List AOut :=
  let r := (v1_record chunks v1RecInit).1
  if r.speech = false then (s, none, [])
  else
    let text := tr r.recorded
    let pr := v1_publish_transcription text
    (s, pr.1, pr.2)

/- One iteration of the main loop in AudioInput.start of audio_input.py:
wake-word mode only while idle, transcription mode while active and not
speaking (standalone mode then returns to idle), otherwise sleep. -/
def v1_loop_step (cfg : AConfig) (score : Frame → ℚ) (tr : List Frame → Str)
    (f : Frame) (chunks : List Frame) (s : V1State) : V1State × List AOut :=
  if s.session_state = "idle".toList then listen_wake_word cfg score f s
  else if s.session_state = "active".toList ∧ s.robot_speaking = false then
    let r := listen_and_transcribe tr chunks s
    ({ r.1 with session_state := "idle".toList }, r.2.2)
  else (s, [])

/-! Spacing relation and run invariant for the detection-event temporal
properties. -/

/- Two emission times separated by at least the rate limit and at least the
cooldown. -/
def spaced (rate cd : ℕ) (a b : ℕ) : Prop := a + rate ≤ b ∧ a + cd ≤ b

/- Invariant carried along a run of the audio module: `ld` is the time of
the most recent DetectionEvent (if any), `tb` an upper bound on all input
times seen so far.  After a detection the module is recording; once the
recording stops, the cooldown timestamp is at or after that detection. -/
def InvA (s : AState) (ld : Option ℕ) (tb : ℕ) : Prop :=
  s.last_detection_attempt ≤ tb ∧ s.last_wake_detection_time ≤ tb ∧
  ∀ tp, ld = some tp → 0 < tp ∧ s.last_detection_attempt = tp ∧
    (s.recording = true ∨
     (tp ≤ s.last_wake_detection_time ∧ 0 < s.last_wake_detection_time))

/-! Concrete instances used by witnesses and counterexamples. -/

def trNil : List Frame → Str := fun _ => []

def thankYouStr : Str := "Thank you.".toList

def trThankYou : List Frame → Str := fun _ => thankYouStr

def scoreZero : Frame → ℚ := fun _ => 0

def scoreOne : Frame → ℚ := fun _ => 1

def cfgSM : SMConfig := { idle_timeout := 30, goodbye_phrases := ["goodbye".toList] }

def silentFrame : Frame := [0, 0, 0]

def loudFrame : Frame := [400]

/- A state in which a recording is in progress, begun at time 1000. -/
def recCexStart : AState :=
  { aInit with session_state := "active".toList, recording := true,
               recording_start_time := 1000 }

/- The same recording after one silent frame at time 1000 (shown reachable
from recCexStart by the lemma prec_1000 below). -/
def recCexMid : AState :=
  { session_state := "active".toList, robot_speaking := false, recording := true,
    recording_buffer := [silentFrame], silence_start := some 1000,
    recording_start_time := 1000, last_wake_detection_time := 0,
    last_detection_attempt := 0, audio_buffer := [] }

/- A state with an in-progress recorder buffer and buffered audio. -/
def aCexBuf : AState :=
  { aInit with recording := true, recording_buffer := [silentFrame],
               audio_buffer := [1, 2] }

def sActCex : AState :=
  { aInit with session_state := "active".toList, recording := true }

def v1IdleState : V1State := { session_state := "idle".toList, robot_speaking := false }

def evs0 : List AEvent := [AEvent.frame 1000 loudFrame, AEvent.frame 5000 loudFrame]

/-! Theorems.  Helper lemmas first, then one theorem per claim. -/

/-- C4: while ACTIVE, a transcription whose lowercased text contains a
configured goodbye phrase as a substring sends the session to IDLE, the new
phase is published, and no llm.request is published. -/
theorem c4_goodbye_transitions_to_idle (cfg : SMConfig) (now : ℕ) (payload : Str)
    (s : SMState) (h1 : s.phase = Phase.active)
    (h2 : goodbyeHit cfg.goodbye_phrases payload = true) :
    (sm_on_message cfg now Topic.transcription payload s).1.phase = Phase.idle ∧
    SMOut.pubSessionState ("idle".toList) ∈ (sm_on_message cfg now Topic.transcription payload s).2 ∧
    llmRequests (sm_on_message cfg now Topic.transcription payload s).2 = [] := by
  simp [sm_on_message, h1, h2, set_state, Phase.value, get_emotion, llmRequests]

theorem c4_witness :
    (⟨Phase.active, 0⟩ : SMState).phase = Phase.active ∧
    goodbyeHit cfgSM.goodbye_phrases ("Thank You, Goodbye!".toList) = true ∧
    ((sm_on_message cfgSM 7 Topic.transcription ("Thank You, Goodbye!".toList)
        ⟨Phase.active, 0⟩).1.phase = Phase.idle ∧
     SMOut.pubSessionState ("idle".toList) ∈
       (sm_on_message cfgSM 7 Topic.transcription ("Thank You, Goodbye!".toList)
         ⟨Phase.active, 0⟩).2 ∧
     llmRequests (sm_on_message cfgSM 7 Topic.transcription ("Thank You, Goodbye!".toList)
       ⟨Phase.active, 0⟩).2 = []) :=
  ⟨rfl, by decide,
   c4_goodbye_transitions_to_idle cfgSM 7 ("Thank You, Goodbye!".toList)
     ⟨Phase.active, 0⟩ rfl (by decide)⟩

/-- C5: while ACTIVE, a non-goodbye transcription publishes exactly one
llm.request carrying the transcription text and the phase becomes SPEAKING
in the same handler, with no wait on any collaborator (the handler's output
is produced in one atomic step). -/
theorem c5_transcription_to_llm_and_speaking (cfg : SMConfig) (now : ℕ)
    (payload : Str) (s : SMState) (h1 : s.phase = Phase.active)
    (h2 : goodbyeHit cfg.goodbye_phrases payload = false) :
    (sm_on_message cfg now Topic.transcription payload s).1.phase = Phase.speaking ∧
    llmRequests (sm_on_message cfg now Topic.transcription payload s).2 = [payload] := by
  simp [sm_on_message, h1, h2, set_state, Phase.value, get_emotion, llmRequests]

theorem c5_witness :
    (⟨Phase.active, 0⟩ : SMState).phase = Phase.active ∧
    goodbyeHit cfgSM.goodbye_phrases ("what is 2 plus 2".toList) = false ∧
    ((sm_on_message cfgSM 7 Topic.transcription ("what is 2 plus 2".toList)
        ⟨Phase.active, 0⟩).1.phase = Phase.speaking ∧
     llmRequests (sm_on_message cfgSM 7 Topic.transcription ("what is 2 plus 2".toList)
       ⟨Phase.active, 0⟩).2 = ["what is 2 plus 2".toList]) :=
  ⟨rfl, by decide,
   c5_transcription_to_llm_and_speaking cfgSM 7 ("what is 2 plus 2".toList)
     ⟨Phase.active, 0⟩ rfl (by decide)⟩

/-- C7: one tick of the once-per-second timeout checker moves an ACTIVE
session whose idle time exceeds the timeout to IDLE and publishes the
phase; in every other situation the tick changes nothing and publishes
nothing (so the timeout is the only transition the timer drives). -/
theorem c7_idle_timeout (cfg : SMConfig) (now : ℕ) (s : SMState) :
    (s.phase = Phase.active → now - s.last_activity > cfg.idle_timeout →
      check_timeout cfg now s =
        ({ s with phase := Phase.idle },
         [SMOut.pubSessionState ("idle".toList), SMOut.pubEmotion ("sleeping".toList)])) ∧
    (s.phase ≠ Phase.active → check_timeout cfg now s = (s, [])) ∧
    (¬ now - s.last_activity > cfg.idle_timeout → check_timeout cfg now s = (s, [])) := by
  refine ⟨fun h1 h2 => ?_, fun h1 => ?_, fun h2 => ?_⟩
  · simp [check_timeout, h1, h2, set_state, Phase.value, get_emotion]
  · simp [check_timeout, h1]
  · by_cases h1 : s.phase = Phase.active <;> simp [check_timeout, h1, h2]

theorem c7_witness :
    ((⟨Phase.active, 0⟩ : SMState).phase = Phase.active ∧
      (100 : ℕ) - (0 : ℕ) > (30 : ℕ) ∧
      check_timeout cfgSM 100 ⟨Phase.active, 0⟩ =
        (⟨Phase.idle, 0⟩,
         [SMOut.pubSessionState ("idle".toList), SMOut.pubEmotion ("sleeping".toList)])) ∧
    check_timeout cfgSM 10 ⟨Phase.active, 0⟩ = (⟨Phase.active, 0⟩, []) :=
  ⟨⟨rfl, by decide, (c7_idle_timeout cfgSM 100 ⟨Phase.active, 0⟩).1 rfl (by decide)⟩,
   (c7_idle_timeout cfgSM 10 ⟨Phase.active, 0⟩).2.2 (by decide)⟩

/-- C10: a robot.speaking message with payload "true" leaves the session in
phase SPEAKING whatever the current phase, and publishes the phase whenever
the current phase was not already SPEAKING. -/
theorem c10_speaking_true_forces_speaking (cfg : SMConfig) (now : ℕ)
    (payload : Str) (s : SMState) (h : payload = "true".toList) :
    (sm_on_message cfg now Topic.robotSpeaking payload s).1.phase = Phase.speaking ∧
    (s.phase ≠ Phase.speaking →
      (sm_on_message cfg now Topic.robotSpeaking payload s).2 =
        [SMOut.pubSessionState ("speaking".toList), SMOut.pubEmotion ("talking".toList)]) := by
  subst h
  by_cases hp : s.phase = Phase.speaking <;>
    simp [sm_on_message, hp, set_state, Phase.value, get_emotion]

theorem c10_witness :
    ((sm_on_message cfgSM 7 Topic.robotSpeaking ("true".toList)
        ⟨Phase.idle, 0⟩).1.phase = Phase.speaking ∧
     ((⟨Phase.idle, 0⟩ : SMState).phase ≠ Phase.speaking →
       (sm_on_message cfgSM 7 Topic.robotSpeaking ("true".toList) ⟨Phase.idle, 0⟩).2 =
         [SMOut.pubSessionState ("speaking".toList), SMOut.pubEmotion ("talking".toList)])) :=
  c10_speaking_true_forces_speaking cfgSM 7 ("true".toList) ⟨Phase.idle, 0⟩ rfl

/-- C6 (amended): a reset/cancel command forces the session phase to IDLE
and publishes the new phase; the audio front end, on receiving the
resulting idle state message, keeps its in-progress recorder buffer, its
ring buffer and its recording flag unchanged — nothing is discarded on
reset (the recorder buffer is cleared only when the next recording
starts). -/
theorem c6_reset_amended (cfg : SMConfig) (now : ℕ) (payload : Str) (s : SMState)
    (h : payload = "cancel".toList ∨ payload = "reset".toList) :
    (sm_on_message cfg now Topic.sessionCommand payload s).1.phase = Phase.idle ∧
    (sm_on_message cfg now Topic.sessionCommand payload s).2 =
      [SMOut.pubSessionState ("idle".toList), SMOut.pubEmotion ("sleeping".toList)] ∧
    ∀ (t : ℕ) (a : AState),
      (a_on_message t Topic.sessionState ("idle".toList) a).1.recording_buffer =
          a.recording_buffer ∧
      (a_on_message t Topic.sessionState ("idle".toList) a).1.audio_buffer =
          a.audio_buffer ∧
      (a_on_message t Topic.sessionState ("idle".toList) a).1.recording = a.recording := by
  rcases h with h | h <;> subst h <;>
    refine ⟨?_, ?_, fun t a => ?_⟩ <;>
    simp [sm_on_message, set_state, Phase.value, get_emotion, a_on_message]

theorem c6_witness :
    (("reset".toList : Str) = "cancel".toList ∨ ("reset".toList : Str) = "reset".toList) ∧
    (sm_on_message cfgSM 5 Topic.sessionCommand ("reset".toList)
        ⟨Phase.active, 0⟩).1.phase = Phase.idle ∧
    (a_on_message 5 Topic.sessionState ("idle".toList) aCexBuf).1.recording_buffer =
      aCexBuf.recording_buffer :=
  ⟨Or.inr rfl,
   (c6_reset_amended cfgSM 5 ("reset".toList) ⟨Phase.active, 0⟩ (Or.inr rfl)).1,
   ((c6_reset_amended cfgSM 5 ("reset".toList) ⟨Phase.active, 0⟩ (Or.inr rfl)).2.2
     5 aCexBuf).1⟩

/-- C6 counterexample: after a reset command drives the session to IDLE,
the audio front end's in-progress recorder buffer and ring buffer are still
present (the claim says they are discarded): the state message produced by
the reset leaves the nonempty buffers and the recording flag untouched. -/
theorem c6_counterexample :
    (sm_on_message cfgSM 5 Topic.sessionCommand ("reset".toList)
        ⟨Phase.active, 0⟩).1.phase = Phase.idle ∧
    aCexBuf.recording_buffer ≠ [] ∧
    (a_on_message 5 Topic.sessionState ("idle".toList) aCexBuf).1.recording_buffer =
      [silentFrame] ∧
    (a_on_message 5 Topic.sessionState ("idle".toList) aCexBuf).1.audio_buffer = [1, 2] ∧
    (a_on_message 5 Topic.sessionState ("idle".toList) aCexBuf).1.recording = true := by
  refine ⟨by decide, by decide, ?_, ?_, ?_⟩ <;> decide

theorem stop_outs_shape {tr : List Frame → Str} {t : ℕ} {s : AState} {o : AOut}
    (h : o ∈ (stop_recording_and_transcribe tr t s).2) :
    o = AOut.owwReset ∨ ∃ txt, o = AOut.pubTranscription txt := by
  simp only [stop_recording_and_transcribe] at h
  split at h
  · simp at h
  · rcases List.mem_append.mp h with h1 | h1
    · split at h1
      · simp at h1
        exact Or.inr ⟨_, h1⟩
      · simp at h1
    · simp at h1
      exact Or.inl h1

theorem stop_recording_flag {tr : List Frame → Str} {t : ℕ} {s : AState} :
    (stop_recording_and_transcribe tr t s).1.recording = false := by
  simp only [stop_recording_and_transcribe]
  split <;> rfl

theorem prec_outs_shape {cfg : AConfig} {tr : List Frame → Str} {t : ℕ}
    {f : Frame} {s : AState} {o : AOut}
    (h : o ∈ (process_recording cfg tr t f s).2) :
    o = AOut.owwReset ∨ ∃ txt, o = AOut.pubTranscription txt := by
  simp only [process_recording] at h
  split at h
  · simp at h
  · split at h
    · split at h
      · exact stop_outs_shape h
      · simp at h
    · split at h
      · exact stop_outs_shape h
      · split at h
        · exact stop_outs_shape h
        · simp at h

theorem v1pub_outs_shape {text : Str} {o : AOut}
    (h : o ∈ (v1_publish_transcription text).2) :
    ∃ txt, o = AOut.pubTranscription txt := by
  simp only [v1_publish_transcription] at h
  split at h
  · simp at h
  · simp only at h
    split at h
    · simp at h
      exact ⟨_, h⟩
    · simp at h

/-- C1: a frame arriving while the session phase is not IDLE, or while the
robot is speaking, is never scored for the wake word and never produces a
DetectionEvent: in the single-stream front end the callback routes such
frames away from wake-word processing, and in the loop-based front end
listen_wake_word returns before reading while the robot speaks and the main
loop enters wake-word mode only in the idle state. -/
theorem c1_no_scoring_outside_idle (cfg : AConfig) (score : Frame → ℚ)
    (tr : List Frame → Str) (now : ℕ) (f : Frame) :
    (∀ s : AState, (s.session_state ≠ "idle".toList ∨ s.robot_speaking = true) →
      ∀ o ∈ (audio_callback cfg score tr now f s).2,
        o ≠ AOut.predictCalled ∧ ∀ sc, o ≠ AOut.pubWake sc) ∧
    (∀ v : V1State, v.robot_speaking = true → (listen_wake_word cfg score f v).2 = []) ∧
    (∀ (chunks : List Frame) (v : V1State), v.session_state ≠ "idle".toList →
      ∀ o ∈ (v1_loop_step cfg score tr f chunks v).2,
        o ≠ AOut.predictCalled ∧ ∀ sc, o ≠ AOut.pubWake sc) := by
  refine ⟨fun s hs o ho => ?_, fun v hv => ?_, fun chunks v hv o ho => ?_⟩
  · simp only [audio_callback] at ho
    split at ho
    · rename_i hcond
      rcases hcond with ⟨h1, h2⟩
      rcases hs with hs | hs
      · exact absurd h1 hs
      · simp [hs] at h2
    · split at ho
      · rcases prec_outs_shape ho with h | ⟨txt, h⟩ <;> subst h <;>
          exact ⟨by simp, fun sc => by simp⟩
      · simp at ho
  · simp [listen_wake_word, hv]
  · simp only [v1_loop_step] at ho
    split at ho
    · rename_i hcond; exact absurd hcond hv
    · split at ho
      · simp only [listen_and_transcribe] at ho
        split at ho
        · simp at ho
        · rcases v1pub_outs_shape ho with ⟨txt, h⟩
          subst h
          exact ⟨by simp, fun sc => by simp⟩
      · simp at ho

theorem c1_witness :
    (sActCex.session_state ≠ "idle".toList ∨ sActCex.robot_speaking = true) ∧
    (∀ o ∈ (audio_callback defaultAConfig scoreZero trNil 5 loudFrame sActCex).2,
      o ≠ AOut.predictCalled ∧ ∀ sc, o ≠ AOut.pubWake sc) :=
  ⟨Or.inl (by decide),
   (c1_no_scoring_outside_idle defaultAConfig scoreZero trNil 5 loudFrame).1 sActCex
     (Or.inl (by decide))⟩

theorem pww_low_volume {cfg : AConfig} {score : Frame → ℚ} {now : ℕ} {f : Frame}
    {s : AState} (h : meanAbsInt f < cfg.silence_threshold) :
    process_wake_word cfg score now f s = (s, []) := by
  by_cases hg : s.session_state ≠ "idle".toList ∨ s.recording = true
  · simp only [process_wake_word, if_pos hg]
  · simp only [process_wake_word, if_neg hg]
    simp [h]

/-- C8 (amended): in the single-stream front end (audio_input_v2), a frame
whose truncated mean absolute amplitude is below the silence threshold
never reaches the wake-word scorer; in the loop-based front end
(audio_input.py) the scorer is invoked on every chunk read regardless of
its volume, the volume being used only for logging. -/
theorem c8_amended_volume_gate (cfg : AConfig) (score : Frame → ℚ)
    (tr : List Frame → Str) (now : ℕ) (f : Frame) (s : AState)
    (h : meanAbsInt f < cfg.silence_threshold) :
    (∀ o ∈ (audio_callback cfg score tr now f s).2, o ≠ AOut.predictCalled) ∧
    (∀ v : V1State, v.robot_speaking = false →
      AOut.predictCalled ∈ (listen_wake_word cfg score f v).2) := by
  constructor
  · intro o ho
    simp only [audio_callback] at ho
    split at ho
    · rw [pww_low_volume h] at ho
      simp at ho
    · split at ho
      · rcases prec_outs_shape ho with h1 | ⟨txt, h1⟩ <;> subst h1 <;> simp
      · simp at ho
  · intro v hv
    simp only [listen_wake_word, hv]
    simp only [Bool.false_eq_true, if_false]
    split <;> simp

theorem c8_witness :
    meanAbsInt silentFrame < defaultAConfig.silence_threshold ∧
    (∀ o ∈ (audio_callback defaultAConfig scoreZero trNil 5 silentFrame aInit).2,
      o ≠ AOut.predictCalled) :=
  ⟨by decide,
   (c8_amended_volume_gate defaultAConfig scoreZero trNil 5 silentFrame aInit
     (by decide)).1⟩

/-- C8 counterexample: in audio_input.py, listen_wake_word invokes the
scorer on a frame of zero mean absolute amplitude (below any positive
minimum-for-detection threshold), so the claim that sub-threshold frames
never reach predict fails on the loop-based front end. -/
theorem c8_counterexample :
    meanAbsInt silentFrame = 0 ∧ meanAbsQ silentFrame = 0 ∧
    AOut.predictCalled ∈ (listen_wake_word defaultAConfig scoreZero silentFrame
      v1IdleState).2 := by
  refine ⟨by decide, by norm_num [meanAbsQ, silentFrame], ?_⟩
  have hsc : ¬ (scoreZero (decimate silentFrame) > defaultAConfig.wake_threshold) := by
    norm_num [scoreZero, defaultAConfig]
  simp [listen_wake_word, v1IdleState, hsc]

/-- C9 (amended): in audio_input.py the transcribed text is checked by
exact-string match against the hardcoded denylist and a match is rejected
(whisper's result is dropped and nothing is published); in audio_input_v2
any non-empty transcription is published on audio.transcription with no
denylist check at all. -/
theorem c9_amended_denylist :
    (∀ text ∈ hallucinations, v1_publish_transcription text = (none, [])) ∧
    (∀ (tr : List Frame → Str) (now : ℕ) (s : AState),
      s.recording_buffer ≠ [] → tr s.recording_buffer ≠ [] →
      AOut.pubTranscription (tr s.recording_buffer) ∈
        (stop_recording_and_transcribe tr now s).2) := by
  constructor
  · intro text ht
    simp [v1_publish_transcription, ht]
  · intro tr now s h1 h2
    simp [stop_recording_and_transcribe, h1, h2]

theorem c9_witness :
    thankYouStr ∈ hallucinations ∧
    v1_publish_transcription thankYouStr = (none, []) ∧
    (aCexBuf.recording_buffer ≠ [] ∧ trThankYou aCexBuf.recording_buffer ≠ [] ∧
      AOut.pubTranscription (trThankYou aCexBuf.recording_buffer) ∈
        (stop_recording_and_transcribe trThankYou 5 aCexBuf).2) :=
  ⟨by decide, c9_amended_denylist.1 thankYouStr (by decide),
   by decide, by decide,
   c9_amended_denylist.2 trThankYou 5 aCexBuf (by decide) (by decide)⟩

theorem meanAbsQ_silentFrame : meanAbsQ silentFrame = 0 := by
  norm_num [meanAbsQ, silentFrame]

theorem prec_1000 :
    process_recording defaultAConfig trNil 1000 silentFrame recCexStart =
      (recCexMid, []) := by
  norm_num [process_recording, recCexStart, recCexMid, aInit, defaultAConfig,
    meanAbsQ_silentFrame]

theorem prec_3500 (tr : List Frame → Str) :
    process_recording defaultAConfig tr 3500 silentFrame recCexMid =
      ({ recCexMid with
          recording := false, session_state := "idle".toList,
          recording_buffer := [silentFrame, silentFrame],
          last_wake_detection_time := 3500 },
       (if tr [silentFrame, silentFrame] ≠ [] then
          [AOut.pubTranscription (tr [silentFrame, silentFrame])]
        else []) ++ [AOut.owwReset]) := by
  norm_num [process_recording, stop_recording_and_transcribe, recCexMid,
    defaultAConfig, meanAbsQ_silentFrame]
  simp

/-- C9 counterexample: the v2 recorder pipeline publishes the transcription
"Thank you." on audio.transcription even though that exact string is on the
known mis-transcription denylist — no denylist check exists in
audio_input_v2, refuting the claim that matching text is never published. -/
theorem c9_counterexample :
    thankYouStr ∈ hallucinations ∧
    AOut.pubTranscription thankYouStr ∈
      (process_recording defaultAConfig trThankYou 3500 silentFrame recCexMid).2 := by
  refine ⟨by decide, ?_⟩
  rw [prec_3500 trThankYou]
  have hne : thankYouStr ≠ [] := by decide
  simp [trThankYou, hne]

theorem v1_record_total_le :
    ∀ (chunks : List Frame) (r : V1Rec) (res : V1Rec × V1StopReason),
      v1_record chunks r = res → r.total ≤ V1_max_chunks →
      res.1.total ≤ V1_max_chunks := by
  intro chunks
  induction chunks with
  | nil =>
    intro r res heq hr
    simp only [v1_record] at heq
    cases heq
    exact hr
  | cons f rest ih =>
    intro r res heq hr
    simp only [v1_record] at heq
    split at heq
    · cases heq; exact hr
    · rename_i hlt
      simp only [V1_max_chunks] at hlt
      repeat' split at heq
      all_goals
        first
          | (cases heq
             simp only [V1_max_chunks]
             omega)
          | (refine ih _ res heq ?_
             simp only [V1_max_chunks]
             omega)

theorem v1_record_silence_spec :
    ∀ (chunks : List Frame) (r : V1Rec) (res : V1Rec × V1StopReason),
      v1_record chunks r = res → res.2 = V1StopReason.silence →
      res.1.speech = true ∧ V1_silence_chunks_needed ≤ res.1.silence_count := by
  intro chunks
  induction chunks with
  | nil =>
    intro r res heq hsil
    simp only [v1_record] at heq
    cases heq
    simp at hsil
  | cons f rest ih =>
    intro r res heq hsil
    simp only [v1_record] at heq
    split at heq
    · cases heq; simp at hsil
    · repeat' split at heq
      all_goals
        first
          | (rename_i hstop
             cases heq
             exact hstop)
          | (exact ih _ res heq hsil)

/-- C2 (amended): the v2 recorder (audio_input_v2.process_recording) stops
exactly when continuous observed silence reaches silence_duration —
regardless of whether any earlier frame exceeded the threshold — or when
the elapsed recording time reaches max_recording_duration, and otherwise
keeps recording; the v1 recorder (audio_input.listen_and_transcribe) never
reads more than max_recording_duration worth of chunks and stops on silence
only after at least one above-threshold chunk was seen. -/
theorem c2_amended_recorder_stop :
    (∀ (cfg : AConfig) (tr : List Frame → Str) (now : ℕ) (f : Frame) (s : AState),
      s.recording = true →
      ((process_recording cfg tr now f s).1.recording = false ↔
        ((meanAbsQ f ≤ (cfg.silence_threshold : ℚ) ∧
          cfg.silence_duration ≤ now - s.silence_start.getD now) ∨
         cfg.max_recording ≤ now - s.recording_start_time))) ∧
    (∀ (chunks : List Frame) (r : V1Rec), r.total ≤ V1_max_chunks →
      ((v1_record chunks r).1).total ≤ V1_max_chunks) ∧
    (∀ (chunks : List Frame) (r : V1Rec),
      (v1_record chunks r).2 = V1StopReason.silence →
      ((v1_record chunks r).1).speech = true ∧
      V1_silence_chunks_needed ≤ ((v1_record chunks r).1).silence_count) := by
  refine ⟨fun cfg tr now f s hrec => ?_, fun chunks => ?_, fun chunks => ?_⟩
  · simp only [process_recording, hrec]
    simp only [Bool.true_eq_false, if_false]
    split
    · rename_i hvol
      split
      · rename_i hmax
        simp only [stop_recording_flag]
        constructor
        · intro _; exact Or.inr hmax
        · intro _; trivial
      · rename_i hmax
        simp only [hrec]
        constructor
        · intro hfalse; cases hfalse
        · rintro (⟨hle, _⟩ | hge)
          · exact absurd hvol (not_lt.mpr hle)
          · exact absurd hge hmax
    · rename_i hvol
      have hle : meanAbsQ f ≤ (cfg.silence_threshold : ℚ) := not_lt.mp hvol
      split
      · rename_i hsil
        simp only [stop_recording_flag]
        exact ⟨fun _ => Or.inl ⟨hle, hsil⟩, fun _ => trivial⟩
      · rename_i hsil
        split
        · rename_i hmax
          simp only [stop_recording_flag]
          exact ⟨fun _ => Or.inr hmax, fun _ => trivial⟩
        · rename_i hmax
          simp only [hrec]
          constructor
          · intro hfalse; cases hfalse
          · rintro (⟨_, hs⟩ | hge)
            · exact absurd hs hsil
            · exact absurd hge hmax
  · intro r hr
    exact v1_record_total_le chunks r (v1_record chunks r) rfl hr
  · intro r h
    exact v1_record_silence_spec chunks r (v1_record chunks r) rfl h

theorem c2_witness :
    recCexMid.recording = true ∧
    ((process_recording defaultAConfig trNil 3500 silentFrame recCexMid).1.recording = false ↔
      ((meanAbsQ silentFrame ≤ (defaultAConfig.silence_threshold : ℚ) ∧
        defaultAConfig.silence_duration ≤ 3500 - recCexMid.silence_start.getD 3500) ∨
       defaultAConfig.max_recording ≤ 3500 - recCexMid.recording_start_time)) :=
  ⟨by decide,
   c2_amended_recorder_stop.1 defaultAConfig trNil 3500 silentFrame recCexMid (by decide)⟩

/-- C2 counterexample: the v2 recorder stops (recording goes false) after
2.5 s of silence even though no frame of the recording ever exceeded the
silence threshold and the elapsed time is far below the maximum recording
duration — contradicting the claim that the silence stop requires at least
one earlier above-threshold frame. -/
theorem c2_counterexample :
    process_recording defaultAConfig trNil 1000 silentFrame recCexStart = (recCexMid, []) ∧
    recCexMid.recording = true ∧
    (process_recording defaultAConfig trNil 3500 silentFrame recCexMid).1.recording = false ∧
    (process_recording defaultAConfig trNil 3500 silentFrame recCexMid).1.recording_buffer =
      [silentFrame, silentFrame] ∧
    meanAbsQ silentFrame ≤ (defaultAConfig.silence_threshold : ℚ) ∧
    3500 - recCexMid.recording_start_time < defaultAConfig.max_recording := by
  refine ⟨prec_1000, by decide, ?_, ?_, ?_, by decide⟩
  · rw [prec_3500 trNil]
  · rw [prec_3500 trNil]
  · norm_num [meanAbsQ, silentFrame, defaultAConfig]

theorem spaced_trans {r c a b d : ℕ} (h1 : spaced r c a b) (h2 : spaced r c b d) :
    spaced r c a d := by
  obtain ⟨h1a, h1b⟩ := h1
  obtain ⟨h2a, h2b⟩ := h2
  exact ⟨by omega, by omega⟩

theorem pairwise_spaced_cons {r c : ℕ} {a b : ℕ} {l : List ℕ}
    (hab : spaced r c a b) (h : List.Pairwise (spaced r c) (b :: l)) :
    List.Pairwise (spaced r c) (a :: b :: l) := by
  obtain ⟨hb, hl⟩ := List.pairwise_cons.mp h
  refine List.pairwise_cons.mpr ⟨?_, h⟩
  intro x hx
  rcases List.mem_cons.mp hx with hx | hx
  · subst hx; exact hab
  · exact spaced_trans hab (hb x hx)

theorem wakeTimes_append (l1 l2 : List (ℕ × AOut)) :
    wakeTimes (l1 ++ l2) = wakeTimes l1 ++ wakeTimes l2 := by
  simp [wakeTimes, List.filterMap_append]

theorem wakeTimes_map_const (t : ℕ) (outs : List AOut) :
    wakeTimes (outs.map (fun o => (t, o))) = (wakeScores outs).map (fun _ => t) := by
  induction outs with
  | nil => rfl
  | cons o rest ih =>
    cases o <;>
      simp only [wakeTimes, wakeScores, List.map_cons, List.filterMap_cons] at ih ⊢ <;>
      simp [ih]

theorem InvA_carry {s s' : AState} {ld : Option ℕ} {tb t : ℕ}
    (hla : s'.last_detection_attempt = s.last_detection_attempt)
    (hlw : s'.last_wake_detection_time = s.last_wake_detection_time)
    (hrec : s'.recording = s.recording)
    (hI : InvA s ld tb) (ht : tb ≤ t) : InvA s' ld t := by
  obtain ⟨h1, h2, h3⟩ := hI
  refine ⟨?_, ?_, fun tp htp => ?_⟩
  · rw [hla]; exact le_trans h1 ht
  · rw [hlw]; exact le_trans h2 ht
  · obtain ⟨p1, p2, p3⟩ := h3 tp htp
    refine ⟨p1, by rw [hla]; exact p2, ?_⟩
    rcases p3 with p3 | p3
    · exact Or.inl (by rw [hrec]; exact p3)
    · exact Or.inr (by rw [hlw]; exact p3)

theorem InvA_start_recording {t : ℕ} {s : AState} {ld : Option ℕ} {tb : ℕ}
    (hI : InvA s ld tb) (ht : tb ≤ t) :
    InvA (start_recording t s) ld t := by
  obtain ⟨h1, h2, h3⟩ := hI
  refine ⟨le_trans h1 ht, le_trans h2 ht, fun tp htp => ?_⟩
  obtain ⟨p1, p2, p3⟩ := h3 tp htp
  exact ⟨p1, p2, Or.inl rfl⟩

theorem a_on_message_outs (t : ℕ) (topic : Topic) (payload : Str) (s : AState) :
    (a_on_message t topic payload s).2 = [] := by
  simp only [a_on_message]
  split
  · split <;> rfl
  · split <;> rfl

theorem InvA_a_on_message {t : ℕ} {topic : Topic} {payload : Str} {s : AState}
    {ld : Option ℕ} {tb : ℕ} (hI : InvA s ld tb) (ht : tb ≤ t) :
    InvA (a_on_message t topic payload s).1 ld t := by
  simp only [a_on_message]
  split
  · split
    · exact InvA_start_recording (InvA_carry rfl rfl rfl hI (le_refl tb)) ht
    · exact InvA_carry rfl rfl rfl hI ht
  · split
    · exact InvA_carry rfl rfl rfl hI ht
    · exact InvA_carry rfl rfl rfl hI ht

theorem stop_wakeScores {tr : List Frame → Str} {now : ℕ} {s : AState} :
    wakeScores (stop_recording_and_transcribe tr now s).2 = [] := by
  simp only [stop_recording_and_transcribe]
  split
  · rfl
  · split <;> rfl

theorem InvA_stop {tr : List Frame → Str} {now : ℕ} {s : AState} {ld : Option ℕ}
    {tb : ℕ} (hI : InvA s ld tb) (ht : tb ≤ now) (hpos : 0 < now)
    (hne : s.recording_buffer ≠ []) :
    InvA (stop_recording_and_transcribe tr now s).1 ld now := by
  obtain ⟨h1, h2, h3⟩ := hI
  simp only [stop_recording_and_transcribe]
  split
  · rename_i hemp
    exact absurd hemp hne
  · refine ⟨le_trans h1 ht, le_refl now, fun tp htp => ?_⟩
    obtain ⟨p1, p2, p3⟩ := h3 tp htp
    refine ⟨p1, p2, Or.inr ⟨?_, hpos⟩⟩
    calc tp = s.last_detection_attempt := p2.symm
      _ ≤ tb := h1
      _ ≤ now := ht

theorem InvA_process_recording {cfg : AConfig} {tr : List Frame → Str} {now : ℕ}
    {f : Frame} {s : AState} {ld : Option ℕ} {tb : ℕ}
    (hI : InvA s ld tb) (ht : tb ≤ now) (hpos : 0 < now) :
    wakeScores (process_recording cfg tr now f s).2 = [] ∧
    InvA (process_recording cfg tr now f s).1 ld now := by
  have hne : s.recording_buffer ++ [f] ≠ [] := by simp
  simp only [process_recording]
  split
  · exact ⟨rfl, InvA_carry rfl rfl rfl hI ht⟩
  · split
    · split
      · exact ⟨stop_wakeScores,
          InvA_stop (InvA_carry rfl rfl rfl hI (le_refl tb)) ht hpos hne⟩
      · exact ⟨rfl, InvA_carry rfl rfl rfl hI ht⟩
    · split
      · exact ⟨stop_wakeScores,
          InvA_stop (InvA_carry rfl rfl rfl hI (le_refl tb)) ht hpos hne⟩
      · split
        · exact ⟨stop_wakeScores,
            InvA_stop (InvA_carry rfl rfl rfl hI (le_refl tb)) ht hpos hne⟩
        · exact ⟨rfl, InvA_carry rfl rfl rfl hI ht⟩

theorem InvA_process_wake_word {cfg : AConfig} {score : Frame → ℚ} {now : ℕ}
    {f : Frame} {s : AState} {ld : Option ℕ} {tb : ℕ}
    (hI : InvA s ld tb) (ht : tb ≤ now) (hpos : 0 < now) :
    (wakeScores (process_wake_word cfg score now f s).2 = [] ∧
      InvA (process_wake_word cfg score now f s).1 ld now) ∨
    ((process_wake_word cfg score now f s).2 =
        [AOut.predictCalled, AOut.pubWake (score (decimate f)), AOut.owwReset] ∧
      (∀ tp, ld = some tp →
        spaced cfg.detection_rate_limit cfg.wake_cooldown tp now) ∧
      InvA (process_wake_word cfg score now f s).1 (some now) now) := by
  simp only [process_wake_word]
  split
  · exact Or.inl ⟨rfl, InvA_carry rfl rfl rfl hI ht⟩
  · rename_i hguard
    rw [not_or] at hguard
    obtain ⟨hst, hrecn⟩ := hguard
    have hrec : s.recording = false := by
      cases h : s.recording
      · rfl
      · exact absurd h hrecn
    split
    · exact Or.inl ⟨rfl, InvA_carry rfl rfl rfl hI ht⟩
    · split
      · exact Or.inl ⟨rfl, InvA_carry rfl rfl rfl hI ht⟩
      · rename_i hrate
        split
        · exact Or.inl ⟨rfl, InvA_carry rfl rfl rfl hI ht⟩
        · rename_i hcool
          split
          · refine Or.inr ⟨rfl, fun tp htp => ?_, ?_⟩
            · obtain ⟨h1, h2, h3⟩ := hI
              obtain ⟨p1, p2, p3⟩ := h3 tp htp
              have htpnow : tp ≤ now := by
                calc tp = s.last_detection_attempt := p2.symm
                  _ ≤ tb := h1
                  _ ≤ now := ht
              rw [p2] at hrate
              constructor
              · omega
              · rcases p3 with p3 | p3
                · rw [p3] at hrec; cases hrec
                · obtain ⟨hlw1, hlw2⟩ := p3
                  have hlwnow : s.last_wake_detection_time ≤ now := le_trans h2 ht
                  omega
            · obtain ⟨h1, h2, h3⟩ := hI
              refine ⟨le_refl now, le_trans h2 ht, fun tp htp => ?_⟩
              obtain rfl : now = tp := by injection htp
              exact ⟨hpos, rfl, Or.inl rfl⟩
          · exact Or.inl ⟨rfl, InvA_carry rfl rfl rfl hI ht⟩

theorem InvA_stepA {cfg : AConfig} {score : Frame → ℚ} {tr : List Frame → Str}
    {s : AState} {e : AEvent} {ld : Option ℕ} {tb : ℕ}
    (hI : InvA s ld tb) (ht : tb ≤ e.time) (hpos : 0 < e.time) :
    (wakeScores (stepA cfg score tr s e).2 = [] ∧
      InvA (stepA cfg score tr s e).1 ld e.time) ∨
    (∃ sc, (stepA cfg score tr s e).2 =
        [AOut.predictCalled, AOut.pubWake sc, AOut.owwReset] ∧
      (∀ tp, ld = some tp →
        spaced cfg.detection_rate_limit cfg.wake_cooldown tp e.time) ∧
      InvA (stepA cfg score tr s e).1 (some e.time) e.time) := by
  cases e with
  | msg t topic payload =>
    left
    exact ⟨by rw [stepA, a_on_message_outs]; rfl, InvA_a_on_message hI ht⟩
  | frame t f =>
    have hI0 : InvA { s with audio_buffer := ringExtend cfg.buffer_samples s.audio_buffer f }
        ld tb := InvA_carry rfl rfl rfl hI (le_refl tb)
    simp only [stepA, audio_callback]
    split
    · rcases @InvA_process_wake_word cfg score t f _ ld tb hI0 ht hpos with
        ⟨h1, h2⟩ | ⟨h1, h2, h3⟩
      · exact Or.inl ⟨h1, h2⟩
      · exact Or.inr ⟨_, h1, h2, h3⟩
    · split
      · obtain ⟨h1, h2⟩ := @InvA_process_recording cfg tr t f _ ld tb hI0 ht hpos
        exact Or.inl ⟨h1, h2⟩
      · exact Or.inl ⟨rfl, InvA_carry rfl rfl rfl hI ht⟩

theorem runA_wake_pairwise (cfg : AConfig) (score : Frame → ℚ)
    (tr : List Frame → Str) :
    ∀ (evs : List AEvent) (s : AState) (ld : Option ℕ) (tb : ℕ),
      InvA s ld tb →
      (∀ e ∈ evs, tb ≤ AEvent.time e) →
      (∀ e ∈ evs, 0 < AEvent.time e) →
      List.Pairwise (fun a b => AEvent.time a ≤ AEvent.time b) evs →
      List.Pairwise (spaced cfg.detection_rate_limit cfg.wake_cooldown)
        (ld.toList ++ wakeTimes (runA cfg score tr s evs).2) := by
  intro evs
  induction evs with
  | nil =>
    intro s ld tb hI _ _ _
    cases ld <;> simp [runA, wakeTimes]
  | cons e rest ih =>
    intro s ld tb hI hlb hpos hmono
    obtain ⟨hhead, htail⟩ := List.pairwise_cons.mp hmono
    simp only [runA]
    rw [wakeTimes_append, wakeTimes_map_const]
    have hlbrest : ∀ e' ∈ rest, AEvent.time e ≤ AEvent.time e' := hhead
    have hposrest : ∀ e' ∈ rest, 0 < AEvent.time e' :=
      fun e' he' => hpos e' (List.mem_cons_of_mem e he')
    rcases @InvA_stepA cfg score tr s e ld tb hI
        (hlb e (List.mem_cons_self e rest)) (hpos e (List.mem_cons_self e rest)) with
      ⟨hsc, hinv⟩ | ⟨sc, houts, hspc, hinv⟩
    · rw [hsc]
      simp only [List.map_nil, List.nil_append]
      exact ih _ ld (AEvent.time e) hinv hlbrest hposrest htail
    · rw [houts]
      have hws : wakeScores [AOut.predictCalled, AOut.pubWake sc, AOut.owwReset] =
          [sc] := rfl
      rw [hws]
      simp only [List.map_cons, List.map_nil]
      have hrest := ih _ (some (AEvent.time e)) (AEvent.time e) hinv hlbrest hposrest htail
      simp only [Option.toList_some, List.cons_append, List.nil_append] at hrest ⊢
      cases ld with
      | none => simpa using hrest
      | some tp =>
        simp only [Option.toList_some, List.cons_append, List.nil_append]
        exact pairwise_spaced_cons (hspc tp rfl) hrest

/-- C3: over any monotonically timed input trace from the initial state, the
published DetectionEvents are pairwise spaced: no two are emitted less than
detection_rate_limit apart, and none is emitted within wake_cooldown of any
prior detection, regardless of the wake-word scores. -/
theorem c3_detection_spacing (cfg : AConfig) (score : Frame → ℚ)
    (tr : List Frame → Str) (evs : List AEvent)
    (hpos : ∀ e ∈ evs, 0 < AEvent.time e)
    (hmono : List.Pairwise (fun a b => AEvent.time a ≤ AEvent.time b) evs) :
    List.Pairwise
      (fun a b => a + cfg.detection_rate_limit ≤ b ∧ a + cfg.wake_cooldown ≤ b)
      (wakeTimes (runA cfg score tr aInit evs).2) := by
  have h := runA_wake_pairwise cfg score tr evs aInit none 0
    ⟨le_refl 0, le_refl 0, fun tp htp => by cases htp⟩
    (fun e _ => Nat.zero_le _) hpos hmono
  simpa [spaced] using h

theorem c3_witness :
    (∀ e ∈ evs0, 0 < AEvent.time e) ∧
    List.Pairwise (fun a b => AEvent.time a ≤ AEvent.time b) evs0 ∧
    List.Pairwise
      (fun a b => a + defaultAConfig.detection_rate_limit ≤ b ∧
        a + defaultAConfig.wake_cooldown ≤ b)
      (wakeTimes (runA defaultAConfig scoreOne trNil aInit evs0).2) :=
  ⟨by decide, by decide,
   c3_detection_spacing defaultAConfig scoreOne trNil evs0 (by decide) (by decide)⟩

end Pibot
